import Mathlib

/-!
# Verification of the NBA data-lake provisioning pipeline

A shallow embedding of `src/nba_data_lake.py`: a linear pipeline that
provisions an S3 bucket, a Glue database, fetches NBA player data over
HTTP, uploads it as line-delimited JSON, creates a Glue table and
configures Athena.  Effectful Python code is modelled as pure Lean
functions from an *outcome environment* (what each external provider
call returns or raises) to a trace of events (provider calls and
printed messages) plus a result classification per step.
-/

namespace NbaDataLake

/-! ## Data model

A dataset record is a Python dict mapping field names to scalar values,
as returned by `response.json()` (spec section 3: PlayerID int,
FirstName/LastName/Team/Position string, Points int).  `PyVal.unserializable`
stands for a Python value `json.dumps` cannot serialize (it raises
`TypeError`, carrying the given message). -/

inductive Scalar : Type
  | null : Scalar
  | bool (b : Bool) : Scalar
  | int (i : Int) : Scalar
  | str (s : String) : Scalar
deriving DecidableEq, Repr

inductive PyVal : Type
  | scalar (s : Scalar) : PyVal
  | unserializable (msg : String) : PyVal
deriving DecidableEq, Repr

/-- A dataset record: an ordered association list of field name to value
(Python dicts preserve insertion order). -/
abbrev Record : Type := List (String × PyVal)

/-- Configuration loaded from the environment at module load
(lines 12-20 of the source). -/
structure Config : Type where
  region : String
  bucketName : String
  glueDatabaseName : String
  apiKey : String
  nbaEndpoint : String
deriving DecidableEq, Repr

/-- Line 16: `athena_output_location = f"s3://{bucket_name}/athena-results/"`. -/
def athena_output_location (cfg : Config) : String :=
  "s3://" ++ cfg.bucketName ++ "/athena-results/"

/-! ## Exceptions raised by the external providers

Each constructor is one exception class the corresponding provider call
can raise; `other` is any further `Exception`.  Note that in botocore,
`PartialCredentialsError` and `NoCredentialsError` are sibling
subclasses of `BotoCoreError`: neither is a subclass of the other.
We name the former `incompleteCredentialsError` here; it models
botocore's partial-credentials exception, imported on line 7 of the
source. -/

inductive S3CreateExc : Type
  | bucketAlreadyOwnedByYou : S3CreateExc
  | noCredentialsError : S3CreateExc
  | incompleteCredentialsError (msg : String) : S3CreateExc
  | other (msg : String) : S3CreateExc
deriving DecidableEq, Repr

/-- `isinstance(e, BucketAlreadyOwnedByYou)`: the first except clause
of `create_s3_bucket`. -/
def S3CreateExc.isBucketAlreadyOwnedByYou : S3CreateExc → Bool
  | .bucketAlreadyOwnedByYou => true
  | _ => false

/-- `isinstance(e, NoCredentialsError)`: the second except clause of
`create_s3_bucket`.  botocore's partial-credentials exception is NOT an
instance of `NoCredentialsError` (they are siblings under
`BotoCoreError`), so it does not match this clause. -/
def S3CreateExc.isNoCredentialsError : S3CreateExc → Bool
  | .noCredentialsError => true
  | _ => false

/-- `str(e)` for the generic `except Exception as e` clause. -/
def S3CreateExc.message : S3CreateExc → String
  | .bucketAlreadyOwnedByYou => "An error occurred (BucketAlreadyOwnedByYou)"
  | .noCredentialsError => "Unable to locate credentials"
  | .incompleteCredentialsError msg => msg
  | .other msg => msg

inductive GlueExc : Type
  | alreadyExistsException : GlueExc
  | other (msg : String) : GlueExc
deriving DecidableEq, Repr

def GlueExc.isAlreadyExistsException : GlueExc → Bool
  | .alreadyExistsException => true
  | _ => false

def GlueExc.message : GlueExc → String
  | .alreadyExistsException => "An error occurred (AlreadyExistsException)"
  | .other msg => msg

inductive PutExc : Type
  | noCredentialsError : PutExc
  | other (msg : String) : PutExc
deriving DecidableEq, Repr

def PutExc.isNoCredentialsError : PutExc → Bool
  | .noCredentialsError => true
  | _ => false

def PutExc.message : PutExc → String
  | .noCredentialsError => "Unable to locate credentials"
  | .other msg => msg

inductive AthenaExc : Type
  | other (msg : String) : AthenaExc
deriving DecidableEq, Repr

def AthenaExc.message : AthenaExc → String
  | .other msg => msg

/-- The four failure classes of `requests`, plus the final catch-all
`except Exception` (e.g. `response.json()` failing on a non-JSON body).
`requests.exceptions.HTTPError`, `ConnectionError` and `Timeout` are
subclasses of `RequestException`; the source lists them before the
`RequestException` clause, so each reaches its own branch. -/
inductive FetchExc : Type
  | httpError (msg : String) : FetchExc
  | connectionError : FetchExc
  | timeout : FetchExc
  | requestException (msg : String) : FetchExc
  | other (msg : String) : FetchExc
deriving DecidableEq, Repr

/-- The outcome of one external call: it returns normally or raises. -/
inductive Outcome (ε : Type) : Type
  | ok : Outcome ε
  | raise (e : ε) : Outcome ε
deriving DecidableEq, Repr

/-- The outcome of `requests.get` + `raise_for_status` + `response.json()`:
either a parsed list of records or an exception. -/
inductive FetchOutcome : Type
  | ok (data : List Record) : FetchOutcome
  | raise (e : FetchExc) : FetchOutcome
deriving DecidableEq, Repr

/-- One outcome per external call `main` can make: what the providers
do on this particular run. -/
structure Env : Type where
  s3Create : Outcome S3CreateExc
  glueDb : Outcome GlueExc
  fetch : FetchOutcome
  put : Outcome PutExc
  glueTable : Outcome GlueExc
  athena : Outcome AthenaExc
deriving DecidableEq, Repr

/-! ## Observable events

One constructor per provider-call site in the source, plus `print` and
`sleep`.  A call event records the arguments the code passes; it is
emitted whether the call succeeds or raises. -/

inductive Event : Type
  | print (s : String) : Event
  | sleep (seconds : Nat) : Event
  | s3CreateBucket (bucket : String) (locationConstraint : Option String) : Event
  | glueCreateDatabase (name description : String) : Event
  | httpGet (url subscriptionKey : String) : Event
  | s3PutObject (bucket key body : String) : Event
  | glueCreateTable (database table location : String) : Event
  | athenaStartQuery (queryString contextDatabase outputLocation : String) : Event
deriving DecidableEq, Repr

def Event.isS3CreateBucket : Event → Bool
  | .s3CreateBucket _ _ => true
  | _ => false

def Event.isGlueCreateDatabase : Event → Bool
  | .glueCreateDatabase _ _ => true
  | _ => false

def Event.isHttpGet : Event → Bool
  | .httpGet _ _ => true
  | _ => false

def Event.isS3PutObject : Event → Bool
  | .s3PutObject _ _ _ => true
  | _ => false

def Event.isGlueCreateTable : Event → Bool
  | .glueCreateTable _ _ _ => true
  | _ => false

def Event.isAthenaStartQuery : Event → Bool
  | .athenaStartQuery _ _ _ => true
  | _ => false

/-! ## The `json.dumps` model

`convert_to_line_delimited_json` (lines 84-91) serializes each record
with Python's `json.dumps` and joins with `"\n"`.  We model `json.dumps`
on flat records of scalars, following CPython's `json` encoder with its
defaults: separators `", "` and `": "`, and `ensure_ascii=True`, so
`"` and `\` are escaped, the control characters BS HT LF FF CR get
their two-character escapes, and every other character outside
`0x20..0x7e` becomes a lowercase `\uXXXX` escape (a surrogate pair for
code points above `0xffff`).  A non-serializable value raises
`TypeError`, modelled as `Except.error`. -/

/-- Lowercase hexadecimal digit, for `n < 16`. -/
def hexDigitChar (n : Nat) : Char :=
  if n < 10 then Char.ofNat (48 + n) else Char.ofNat (87 + n)

/-- Four lowercase hex digits of `n < 0x10000` (CPython `'\u%04x'`). -/
def hex4 (n : Nat) : List Char :=
  [hexDigitChar (n / 4096 % 16), hexDigitChar (n / 256 % 16),
   hexDigitChar (n / 16 % 16), hexDigitChar (n % 16)]

/-- The `\uXXXX` escape of code point `n`; a surrogate pair when
`n ≥ 0x10000`. -/
def uEscape (n : Nat) : List Char :=
  if n < 0x10000 then '\\' :: 'u' :: hex4 n
  else
    ('\\' :: 'u' :: hex4 (0xd800 + (n - 0x10000) / 0x400)) ++
    ('\\' :: 'u' :: hex4 (0xdc00 + (n - 0x10000) % 0x400))

/-- CPython's `py_encode_basestring_ascii` escaping of one character. -/
def escChar (c : Char) : List Char :=
  if c = '\\' then ['\\', '\\']
  else if c = '"' then ['\\', '"']
  else if c = '\n' then ['\\', 'n']
  else if c = '\t' then ['\\', 't']
  else if c = '\r' then ['\\', 'r']
  else if c.toNat = 8 then ['\\', 'b']
  else if c.toNat = 12 then ['\\', 'f']
  else if c.toNat < 0x20 ∨ 0x7e < c.toNat then uEscape c.toNat
  else [c]

/-- A JSON string literal: `"` + escaped characters + `"`. -/
def encodeStr (s : String) : List Char :=
  '"' :: (s.data.map escChar).flatten ++ ['"']

/-- Decimal digit character, for `n < 10`. -/
def digitChar (n : Nat) : Char := Char.ofNat (48 + n)

/-- Decimal digits of `n`, most significant first; `fuel` bounds the
recursion (any `fuel ≥ n` is enough). -/
def natDigits : Nat → Nat → List Char
  | 0, _ => []
  | fuel + 1, n =>
    if n < 10 then [digitChar n] else natDigits fuel (n / 10) ++ [digitChar (n % 10)]

def natChars (n : Nat) : List Char := natDigits (n + 1) n

/-- Python's decimal rendering of an int (`repr`): optional `-` sign and
digits, no leading zeros. -/
def intChars (i : Int) : List Char :=
  if i < 0 then '-' :: natChars (-i).toNat else natChars i.toNat

def encodeScalar : Scalar → List Char
  | .null => ("null" : String).data
  | .bool true => ("true" : String).data
  | .bool false => ("false" : String).data
  | .int i => intChars i
  | .str s => encodeStr s

/-- Is this a value `json.dumps` raises `TypeError` on? -/
def PyVal.isUnserializable : PyVal → Bool
  | .scalar _ => false
  | .unserializable _ => true

/-- Serializing one value; a `TypeError` for a value `json.dumps` does
not support (CPython: `Object of type ... is not JSON serializable`). -/
def encodePyVal : PyVal → Except String (List Char)
  | .scalar s => .ok (encodeScalar s)
  | .unserializable msg => .error msg

/-- One `"key": value` member of the object. -/
def encodePair (kv : String × PyVal) : Except String (List Char) :=
  (encodePyVal kv.2).map (fun v => encodeStr kv.1 ++ ':' :: ' ' :: v)

/-- All members of the object in order; the first `TypeError` wins. -/
def encode_pairs : List (String × PyVal) → Except String (List (List Char))
  | [] => .ok []
  | kv :: rest =>
    match encodePair kv with
    | .error e => .error e
    | .ok cs =>
      match encode_pairs rest with
      | .error e => .error e
      | .ok css => .ok (cs :: css)

/-- Join pieces with a separator (Python `sep.join`). -/
def joinSep (sep : List Char) : List (List Char) → List Char
  | [] => []
  | [x] => x
  | x :: y :: rest => x ++ sep ++ joinSep sep (y :: rest)

/-- `json.dumps(record)`: `{"k1": v1, "k2": v2}` with default
separators `", "` and `": "`. -/
def json_dumps (r : Record) : Except String String :=
  match encode_pairs r with
  | .error e => .error e
  | .ok ps => .ok (String.mk ('\x7b' :: joinSep [',', ' '] ps ++ ['\x7d']))

/-- The list comprehension `[json.dumps(record) for record in data]`:
every record serialized, in order, or the first `TypeError` raised. -/
def dumps_all : List Record → Except String (List String)
  | [] => .ok []
  | r :: rest =>
    match json_dumps r with
    | .error e => .error e
    | .ok s =>
      match dumps_all rest with
      | .error e => .error e
      | .ok ss => .ok (s :: ss)

/-- Python `"\n".join`. -/
def joinNl : List String → String
  | [] => ""
  | [s] => s
  | s :: t :: rest => s ++ "\n" ++ joinNl (t :: rest)

/-- Lines 84-91: serialize every record and join with newlines; a
`TypeError` from any record makes the whole batch yield `""`. -/
def convert_to_line_delimited_json (data : List Record) : String :=
  match dumps_all data with
  | .ok ss => joinNl ss
  | .error _ => ""

/-! ## The six pipeline steps

Each step returns a result classification (which branch of its
`try`/`except` ran) and the trace of events it produces.  Call events
are emitted with the exact arguments the code passes; the outcome of
the call is supplied by `Env`.  The `except` clauses are tried in
source order, mirrored by the `if`-chains below. -/

inductive S3CreateResult : Type
  | created | alreadyOwned | credentialsError | genericError
deriving DecidableEq, Repr

inductive GlueResult : Type
  | created | alreadyExists | genericError
deriving DecidableEq, Repr

inductive UploadResult : Type
  | uploaded | credentialsError | genericError
deriving DecidableEq, Repr

inductive AthenaResult : Type
  | configured | genericError
deriving DecidableEq, Repr

/-- Lines 31-37: the region branch picks one of two distinct
`create_bucket` calls — with `CreateBucketConfiguration` only when the
region is not `us-east-1`. -/
def s3_create_bucket_call (cfg : Config) : Event :=
  if cfg.region = "us-east-1" then .s3CreateBucket cfg.bucketName none
  else .s3CreateBucket cfg.bucketName (some cfg.region)

/-- Lines 28-44. -/
def create_s3_bucket (cfg : Config) (o : Outcome S3CreateExc) :
    S3CreateResult × List Event :=
  let call : Event := s3_create_bucket_call cfg
  match o with
  | .ok =>
    (.created,
     [call, .print ("S3 bucket \x27" ++ cfg.bucketName ++ "\x27 created successfully.")])
  | .raise e =>
    if e.isBucketAlreadyOwnedByYou then
      (.alreadyOwned,
       [call, .print ("S3 bucket \x27" ++ cfg.bucketName ++
         "\x27 already exists and is owned by you.")])
    else if e.isNoCredentialsError then
      (.credentialsError,
       [call, .print "AWS credentials not found. Please configure your credentials."])
    else
      (.genericError, [call, .print ("Error creating S3 bucket: " ++ e.message)])

/-- Lines 47-60. -/
def create_glue_database (cfg : Config) (o : Outcome GlueExc) :
    GlueResult × List Event :=
  let call : Event :=
    .glueCreateDatabase cfg.glueDatabaseName "Glue database for NBA sports analytics."
  match o with
  | .ok =>
    (.created,
     [call, .print ("Glue database \x27" ++ cfg.glueDatabaseName ++
       "\x27 created successfully.")])
  | .raise e =>
    if e.isAlreadyExistsException then
      (.alreadyExists,
       [call, .print ("Glue database \x27" ++ cfg.glueDatabaseName ++
         "\x27 already exists.")])
    else
      (.genericError, [call, .print ("Error creating Glue database: " ++ e.message)])

/-- Lines 63-81: all five `except` clauses fall through to `return []`. -/
def fetch_nba_data (cfg : Config) (o : FetchOutcome) : List Record × List Event :=
  let call : Event := .httpGet cfg.nbaEndpoint cfg.apiKey
  match o with
  | .ok data => (data, [call, .print "Fetched NBA data successfully."])
  | .raise e =>
    ([],
     [call,
      .print (match e with
        | .httpError msg => "HTTP error occurred: " ++ msg
        | .connectionError =>
          "Network connection error. Please check your internet connection."
        | .timeout => "Request timed out. Please try again."
        | .requestException msg => "An error occurred: " ++ msg
        | .other msg => "Error fetching NBA data: " ++ msg)])

/-- Line 99: the fixed object key of the uploaded batch. -/
def file_key : String := "raw-data/nba_player_data.jsonl"

/-- Line 90: the message printed when `json.dumps` raised `TypeError`
inside the conversion (and nothing otherwise). -/
def convert_error_trace (data : List Record) : List Event :=
  match dumps_all data with
  | .error e => [Event.print ("Error converting data to JSON: " ++ e)]
  | .ok _ => []

/-- Lines 94-111: convert (the conversion's own prints included), then
`put_object` with the converted body — which is `""` whenever
conversion failed. -/
def upload_data_to_s3 (cfg : Config) (data : List Record) (o : Outcome PutExc) :
    UploadResult × List Event :=
  let body := convert_to_line_delimited_json data
  let convertTrace :=
    Event.print "Converting data to line-delimited JSON format..." ::
    convert_error_trace data
  let call : Event := .s3PutObject cfg.bucketName file_key body
  match o with
  | .ok =>
    (.uploaded, convertTrace ++ [call, .print ("Uploaded data to S3: " ++ file_key)])
  | .raise e =>
    if e.isNoCredentialsError then
      (.credentialsError,
       convertTrace ++
       [call, .print "AWS credentials not found. Please configure your credentials."])
    else
      (.genericError,
       convertTrace ++ [call, .print ("Error uploading data to S3: " ++ e.message)])

/-- Line 130: the storage location declared in the Glue table input. -/
def glue_table_location (cfg : Config) : String :=
  "s3://" ++ cfg.bucketName ++ "/raw-data/"

/-- Lines 114-144. -/
def create_glue_table (cfg : Config) (o : Outcome GlueExc) :
    GlueResult × List Event :=
  let call : Event :=
    .glueCreateTable cfg.glueDatabaseName "nba_players" (glue_table_location cfg)
  match o with
  | .ok =>
    (.created, [call, .print "Glue table \x27nba_players\x27 created successfully."])
  | .raise e =>
    if e.isAlreadyExistsException then
      (.alreadyExists, [call, .print "Glue table \x27nba_players\x27 already exists."])
    else
      (.genericError, [call, .print ("Error creating Glue table: " ++ e.message)])

/-- Line 151: the query string is a literal, independent of the
configured Glue database name. -/
def athena_query : String := "CREATE DATABASE IF NOT EXISTS nba_analytics"

/-- Lines 147-157. -/
def configure_athena (cfg : Config) (o : Outcome AthenaExc) :
    AthenaResult × List Event :=
  let call : Event :=
    .athenaStartQuery athena_query cfg.glueDatabaseName (athena_output_location cfg)
  match o with
  | .ok => (.configured, [call, .print "Athena output location configured successfully."])
  | .raise e =>
    (.genericError, [call, .print ("Error configuring Athena: " ++ e.message)])

/-- Lines 160-171: the orchestrator.  `if nba_data:` is Python list
truthiness — the upload/table/Athena steps run only when the fetched
list is non-empty. -/
def main (cfg : Config) (env : Env) : List Event :=
  let fetched := fetch_nba_data cfg env.fetch
  Event.print "Starting the data lake setup process..." ::
  (create_s3_bucket cfg env.s3Create).2 ++
  Event.sleep 5 ::
  (create_glue_database cfg env.glueDb).2 ++
  fetched.2 ++
  (if fetched.1.isEmpty then []
   else
     (upload_data_to_s3 cfg fetched.1 env.put).2 ++
     (create_glue_table cfg env.glueTable).2 ++
     (configure_athena cfg env.athena).2) ++
  [Event.print "Data lake setup complete."]

/-! ## Trace-shape lemmas

Whatever the provider outcome, each step's trace is its one call event
followed by one message (plus, for the upload step, the conversion
messages in front). -/

theorem create_s3_bucket_trace (cfg : Config) (o : Outcome S3CreateExc) :
    ∃ m, (create_s3_bucket cfg o).2 = [s3_create_bucket_call cfg, Event.print m] := by
  cases o with
  | ok => exact ⟨_, rfl⟩
  | raise e => cases e <;> exact ⟨_, rfl⟩

theorem create_glue_database_trace (cfg : Config) (o : Outcome GlueExc) :
    ∃ m, (create_glue_database cfg o).2 =
      [Event.glueCreateDatabase cfg.glueDatabaseName
        "Glue database for NBA sports analytics.", Event.print m] := by
  cases o with
  | ok => exact ⟨_, rfl⟩
  | raise e => cases e <;> exact ⟨_, rfl⟩

theorem fetch_nba_data_trace (cfg : Config) (o : FetchOutcome) :
    ∃ m, (fetch_nba_data cfg o).2 =
      [Event.httpGet cfg.nbaEndpoint cfg.apiKey, Event.print m] := by
  cases o with
  | ok data => exact ⟨_, rfl⟩
  | raise e => cases e <;> exact ⟨_, rfl⟩

theorem convert_error_trace_shape (data : List Record) :
    convert_error_trace data = [] ∨
      ∃ m, convert_error_trace data = [Event.print m] := by
  unfold convert_error_trace
  cases h : dumps_all data with
  | ok ss => exact Or.inl rfl
  | error msg => exact Or.inr ⟨_, rfl⟩

theorem upload_data_to_s3_trace (cfg : Config) (data : List Record) (o : Outcome PutExc) :
    ∃ m, (upload_data_to_s3 cfg data o).2 =
      Event.print "Converting data to line-delimited JSON format..." ::
        convert_error_trace data ++
        [Event.s3PutObject cfg.bucketName file_key (convert_to_line_delimited_json data),
         Event.print m] := by
  cases o with
  | ok => exact ⟨_, rfl⟩
  | raise e => cases e <;> exact ⟨_, rfl⟩

theorem create_glue_table_trace (cfg : Config) (o : Outcome GlueExc) :
    ∃ m, (create_glue_table cfg o).2 =
      [Event.glueCreateTable cfg.glueDatabaseName "nba_players" (glue_table_location cfg),
       Event.print m] := by
  cases o with
  | ok => exact ⟨_, rfl⟩
  | raise e => cases e <;> exact ⟨_, rfl⟩

theorem configure_athena_trace (cfg : Config) (o : Outcome AthenaExc) :
    ∃ m, (configure_athena cfg o).2 =
      [Event.athenaStartQuery athena_query cfg.glueDatabaseName
        (athena_output_location cfg), Event.print m] := by
  cases o with
  | ok => exact ⟨_, rfl⟩
  | raise e => cases e; exact ⟨_, rfl⟩

theorem s3_create_bucket_call_shape (cfg : Config) :
    ∃ loc, s3_create_bucket_call cfg = Event.s3CreateBucket cfg.bucketName loc := by
  unfold s3_create_bucket_call
  split
  · exact ⟨_, rfl⟩
  · exact ⟨_, rfl⟩

/-- Shared helper: whenever the fetch step returned the empty list, the
trace of `main` contains no `put_object`, no `create_table` and no
`start_query_execution` call. -/
theorem no_ingest_calls_of_empty_fetch (cfg : Config) (env : Env)
    (h : (fetch_nba_data cfg env.fetch).1 = []) :
    (main cfg env).countP Event.isS3PutObject = 0 ∧
    (main cfg env).countP Event.isGlueCreateTable = 0 ∧
    (main cfg env).countP Event.isAthenaStartQuery = 0 := by
  obtain ⟨loc, hloc⟩ := s3_create_bucket_call_shape cfg
  obtain ⟨m1, h1⟩ := create_s3_bucket_trace cfg env.s3Create
  obtain ⟨m2, h2⟩ := create_glue_database_trace cfg env.glueDb
  obtain ⟨m3, h3⟩ := fetch_nba_data_trace cfg env.fetch
  refine ⟨?_, ?_, ?_⟩ <;>
    simp [main, h1, h2, h3, h, hloc, Event.isS3PutObject, Event.isGlueCreateTable,
      Event.isAthenaStartQuery]

/-! ## Claims about the orchestrator and the provisioning steps -/

/-- C1: whatever the outcome (success or any modelled failure) of each of
the six pipeline steps, `main` catches every failure locally, still makes
the later provisioning calls, and always ends by printing the
setup-complete signal; no step's failure escapes `main` (which is a total
function of the outcome environment). -/
theorem main_always_reaches_setup_complete (cfg : Config) (env : Env) :
    (main cfg env).getLast? = some (Event.print "Data lake setup complete.") ∧
    (main cfg env).countP Event.isS3CreateBucket = 1 ∧
    (main cfg env).countP Event.isGlueCreateDatabase = 1 ∧
    (main cfg env).countP Event.isHttpGet = 1 := by
  obtain ⟨loc, hloc⟩ := s3_create_bucket_call_shape cfg
  obtain ⟨m1, h1⟩ := create_s3_bucket_trace cfg env.s3Create
  obtain ⟨m2, h2⟩ := create_glue_database_trace cfg env.glueDb
  obtain ⟨m3, h3⟩ := fetch_nba_data_trace cfg env.fetch
  obtain ⟨m4, h4⟩ := upload_data_to_s3_trace cfg (fetch_nba_data cfg env.fetch).1 env.put
  obtain ⟨m5, h5⟩ := create_glue_table_trace cfg env.glueTable
  obtain ⟨m6, h6⟩ := configure_athena_trace cfg env.athena
  obtain hc | ⟨mc, hc⟩ := convert_error_trace_shape (fetch_nba_data cfg env.fetch).1 <;>
  by_cases hE : (fetch_nba_data cfg env.fetch).1.isEmpty <;>
    refine ⟨?_, ?_, ?_, ?_⟩ <;>
      simp [main, h1, h2, h3, h4, h5, h6, hc, hE, hloc, Event.isS3CreateBucket,
        Event.isGlueCreateDatabase, Event.isHttpGet]

/-- C2: when the fetch step returns the empty sequence, the orchestrator
makes no upload call, no table-creation call and no Athena-configuration
call — the run goes straight to its end. -/
theorem empty_fetch_skips_upload_table_athena (cfg : Config) (env : Env)
    (h : (fetch_nba_data cfg env.fetch).1 = []) :
    (main cfg env).countP Event.isS3PutObject = 0 ∧
    (main cfg env).countP Event.isGlueCreateTable = 0 ∧
    (main cfg env).countP Event.isAthenaStartQuery = 0 :=
  no_ingest_calls_of_empty_fetch cfg env h

/-- C3: each of the four external-API failure classes (HTTP error status,
connection failure, timeout, generic request error) makes
`fetch_nba_data` return the empty sequence rather than propagate, so the
pipeline proceeds exactly as if zero records were fetched (no upload,
table or query-configuration call). -/
theorem fetch_failures_degrade_to_empty (cfg : Config) (env : Env) (m1 m2 : String) :
    ((fetch_nba_data cfg (.raise (.httpError m1))).1 = [] ∧
     (fetch_nba_data cfg (.raise .connectionError)).1 = [] ∧
     (fetch_nba_data cfg (.raise .timeout)).1 = [] ∧
     (fetch_nba_data cfg (.raise (.requestException m2))).1 = []) ∧
    ((env.fetch = .raise (.httpError m1) ∨ env.fetch = .raise .connectionError ∨
      env.fetch = .raise .timeout ∨ env.fetch = .raise (.requestException m2)) →
     (main cfg env).countP Event.isS3PutObject = 0 ∧
     (main cfg env).countP Event.isGlueCreateTable = 0 ∧
     (main cfg env).countP Event.isAthenaStartQuery = 0) := by
  refine ⟨⟨rfl, rfl, rfl, rfl⟩, fun h => ?_⟩
  apply no_ingest_calls_of_empty_fetch
  rcases h with h | h | h | h <;> (rw [h]; rfl)

/-- C4: a second invocation of the bucket-, database- or table-creation
operation in which the provider reports the resource as already existing
(bucket already owned by the caller, database/table already present) runs
the dedicated already-exists handler and is classified as success, never
as a credentials or generic failure. -/
theorem second_create_already_exists_is_success (cfg : Config) :
    (create_s3_bucket cfg .ok).1 = .created ∧
    (create_s3_bucket cfg (.raise .bucketAlreadyOwnedByYou)).1 = .alreadyOwned ∧
    (create_glue_database cfg .ok).1 = .created ∧
    (create_glue_database cfg (.raise .alreadyExistsException)).1 = .alreadyExists ∧
    (create_glue_table cfg .ok).1 = .created ∧
    (create_glue_table cfg (.raise .alreadyExistsException)).1 = .alreadyExists :=
  ⟨rfl, rfl, rfl, rfl, rfl, rfl⟩

/-- C6: when the configured region is the provider default `us-east-1`,
the single bucket-creation call carries no location constraint; for any
other region the call carries exactly that region string as its location
constraint. -/
theorem region_constraint_branching (cfg : Config) (o : Outcome S3CreateExc) :
    (cfg.region = "us-east-1" →
      (create_s3_bucket cfg o).2.filter Event.isS3CreateBucket =
        [Event.s3CreateBucket cfg.bucketName none]) ∧
    (cfg.region ≠ "us-east-1" →
      (create_s3_bucket cfg o).2.filter Event.isS3CreateBucket =
        [Event.s3CreateBucket cfg.bucketName (some cfg.region)]) := by
  obtain ⟨m, hm⟩ := create_s3_bucket_trace cfg o
  refine ⟨fun h => ?_, fun h => ?_⟩ <;>
    rw [hm] <;>
      simp [s3_create_bucket_call, h, Event.isS3CreateBucket]

/-- Configuration values used to instantiate universally quantified
claims on concrete inputs. -/
def sampleConfig : Config :=
  { region := "us-east-1"
    bucketName := "sports-analytics-data-lake"
    glueDatabaseName := "glue_nba_data_lake"
    apiKey := "demo-api-key"
    nbaEndpoint := "https://api.sportsdata.io/v3/nba/scores/json/Players" }

def sampleConfigEU : Config :=
  { sampleConfig with region := "eu-west-1" }

def sampleEnvTimeout : Env :=
  { s3Create := .ok, glueDb := .ok, fetch := .raise .timeout,
    put := .ok, glueTable := .ok, athena := .ok }

theorem empty_fetch_skips_upload_table_athena_witness :
    (fetch_nba_data sampleConfig sampleEnvTimeout.fetch).1 = [] ∧
    ((main sampleConfig sampleEnvTimeout).countP Event.isS3PutObject = 0 ∧
     (main sampleConfig sampleEnvTimeout).countP Event.isGlueCreateTable = 0 ∧
     (main sampleConfig sampleEnvTimeout).countP Event.isAthenaStartQuery = 0) :=
  ⟨rfl, empty_fetch_skips_upload_table_athena sampleConfig sampleEnvTimeout rfl⟩

theorem fetch_failures_degrade_to_empty_witness :
    (main sampleConfig sampleEnvTimeout).countP Event.isS3PutObject = 0 ∧
    (main sampleConfig sampleEnvTimeout).countP Event.isGlueCreateTable = 0 ∧
    (main sampleConfig sampleEnvTimeout).countP Event.isAthenaStartQuery = 0 :=
  (fetch_failures_degrade_to_empty sampleConfig sampleEnvTimeout "" "").2
    (Or.inr (Or.inr (Or.inl rfl)))

theorem region_constraint_branching_witness :
    (create_s3_bucket sampleConfig .ok).2.filter Event.isS3CreateBucket =
      [Event.s3CreateBucket sampleConfig.bucketName none] ∧
    (create_s3_bucket sampleConfigEU .ok).2.filter Event.isS3CreateBucket =
      [Event.s3CreateBucket sampleConfigEU.bucketName (some "eu-west-1")] :=
  ⟨(region_constraint_branching sampleConfig .ok).1 rfl,
   (region_constraint_branching sampleConfigEU .ok).2 (by decide)⟩

/-- C7 (code bug): when the bucket-creation call raises botocore's
partial-credentials exception, the code does NOT reach the dedicated
missing-credentials branch (its `except NoCredentialsError` clause does
not match a sibling exception class); it falls into the generic
`except Exception` branch instead, even though line 7 of the source
imports the partial-credentials class — visibly in order to catch it.
The absent-credentials case does reach the credentials branch. -/
theorem partial_credentials_miss_credentials_branch :
    (create_s3_bucket sampleConfig
        (.raise (.incompleteCredentialsError
          "Partial credentials found in env, missing: AWS_SECRET_ACCESS_KEY"))).1 =
      .genericError ∧
    (create_s3_bucket sampleConfig (.raise .noCredentialsError)).1 =
      .credentialsError ∧
    S3CreateResult.genericError ≠ S3CreateResult.credentialsError :=
  ⟨rfl, rfl, by decide⟩

/-- C9: for every configuration, the storage location declared in the
Glue table definition (`s3://bucket/raw-data/`) is a prefix of the S3
URI the upload step actually writes to (`s3://bucket/` + the fixed
object key `raw-data/nba_player_data.jsonl`), and the upload step does
issue its put with exactly that bucket and key. -/
theorem table_location_covers_upload_location (cfg : Config) (data : List Record)
    (o : Outcome PutExc) :
    Event.s3PutObject cfg.bucketName file_key (convert_to_line_delimited_json data)
      ∈ (upload_data_to_s3 cfg data o).2 ∧
    ∃ rest, glue_table_location cfg ++ rest =
      "s3://" ++ cfg.bucketName ++ "/" ++ file_key := by
  constructor
  · obtain ⟨m, hm⟩ := upload_data_to_s3_trace cfg data o
    rw [hm]; simp
  · refine ⟨"nba_player_data.jsonl", ?_⟩
    unfold glue_table_location file_key
    have hlit : ("/raw-data/" : String) ++ "nba_player_data.jsonl" =
        "/" ++ "raw-data/nba_player_data.jsonl" := rfl
    simp only [String.append_assoc]
    rw [hlit]

/-- C10: the query statement issued by `configure_athena` is the fixed
string `CREATE DATABASE IF NOT EXISTS nba_analytics`, independent of the
configured Glue database name; only the execution-context database and
the output location (derived from the bucket name) vary with the
configuration. -/
theorem athena_query_string_fixed (cfg : Config) (o : Outcome AthenaExc) :
    (configure_athena cfg o).2.filter Event.isAthenaStartQuery =
      [Event.athenaStartQuery "CREATE DATABASE IF NOT EXISTS nba_analytics"
        cfg.glueDatabaseName ("s3://" ++ cfg.bucketName ++ "/athena-results/")] := by
  obtain ⟨m, hm⟩ := configure_athena_trace cfg o
  rw [hm]
  simp [athena_query, athena_output_location, Event.isAthenaStartQuery]

/-! ## Serialization failure (claim C8) -/

theorem encode_pairs_error_of_bad_value (l : List (String × PyVal)) (kv : String × PyVal)
    (hmem : kv ∈ l) (hop : kv.2.isUnserializable = true) :
    ∃ e, encode_pairs l = .error e := by
  induction l with
  | nil => cases hmem
  | cons x xs ih =>
    rcases List.mem_cons.mp hmem with rfl | hmem2
    · obtain ⟨m, hm⟩ : ∃ m, kv.2 = PyVal.unserializable m := by
        cases h2 : kv.2 with
        | scalar s => rw [h2] at hop; cases hop
        | unserializable m => exact ⟨m, rfl⟩
      exact ⟨m, by simp [encode_pairs, encodePair, hm, encodePyVal, Except.map]⟩
    · obtain ⟨e, he⟩ := ih hmem2
      cases hx : encodePair x with
      | error e2 => exact ⟨e2, by simp [encode_pairs, hx]⟩
      | ok cs => exact ⟨e, by simp [encode_pairs, hx, he]⟩

theorem json_dumps_error_of_bad_value (r : Record) (kv : String × PyVal)
    (hmem : kv ∈ r) (hop : kv.2.isUnserializable = true) :
    ∃ e, json_dumps r = .error e := by
  obtain ⟨e, he⟩ := encode_pairs_error_of_bad_value r kv hmem hop
  exact ⟨e, by simp [json_dumps, he]⟩

theorem dumps_all_error_of_mem (data : List Record) (r : Record) (hmem : r ∈ data)
    (h : ∃ e, json_dumps r = .error e) :
    ∃ e, dumps_all data = .error e := by
  induction data with
  | nil => cases hmem
  | cons x xs ih =>
    rcases List.mem_cons.mp hmem with rfl | hmem2
    · obtain ⟨e, he⟩ := h
      exact ⟨e, by simp [dumps_all, he]⟩
    · obtain ⟨e, he⟩ := ih hmem2
      cases hx : json_dumps x with
      | error e2 => exact ⟨e2, by simp [dumps_all, hx]⟩
      | ok s => exact ⟨e, by simp [dumps_all, hx, he]⟩

/-- C8: if any record of the batch contains a value `json.dumps` cannot
serialize, the conversion yields the empty string for the whole batch
(never a partial, prefix-only output), and the upload step nevertheless
issues its `put_object` call with that empty body at the fixed object
key. -/
theorem unserializable_record_empty_batch_still_uploaded (cfg : Config)
    (data : List Record) (o : Outcome PutExc)
    (h : ∃ r ∈ data, ∃ kv ∈ r, kv.2.isUnserializable = true) :
    convert_to_line_delimited_json data = "" ∧
    Event.s3PutObject cfg.bucketName file_key "" ∈ (upload_data_to_s3 cfg data o).2 := by
  obtain ⟨r, hr, kv, hkv, hop⟩ := h
  obtain ⟨e, he⟩ :=
    dumps_all_error_of_mem data r hr (json_dumps_error_of_bad_value r kv hkv hop)
  have hc : convert_to_line_delimited_json data = "" := by
    unfold convert_to_line_delimited_json
    rw [he]
  refine ⟨hc, ?_⟩
  obtain ⟨m, hm⟩ := upload_data_to_s3_trace cfg data o
  rw [hc] at hm
  rw [hm]
  simp

/-- A batch whose second record carries a value that cannot be
serialized (in Python: e.g. a `set`). -/
def sampleBadData : List Record :=
  [[("PlayerID", .scalar (.int 1))],
   [("Roster", .unserializable "Object of type set is not JSON serializable")]]

theorem unserializable_record_empty_batch_still_uploaded_witness :
    (∃ r ∈ sampleBadData, ∃ kv ∈ r, kv.2.isUnserializable = true) ∧
    (convert_to_line_delimited_json sampleBadData = "" ∧
     Event.s3PutObject sampleConfig.bucketName file_key "" ∈
       (upload_data_to_s3 sampleConfig sampleBadData .ok).2) :=
  ⟨by decide,
   unserializable_record_empty_batch_still_uploaded sampleConfig sampleBadData .ok
     (by decide)⟩

/-! ## Lines of a newline-separated string (claim C5)

`linesOf` formalizes "the lines of a newline-separated string" for text
that does not end in a separator: splitting on `'\n'`, with the empty
string having no lines. -/

def splitOnNl : List Char → List (List Char)
  | [] => [[]]
  | c :: rest =>
    if c = '\n' then [] :: splitOnNl rest
    else
      match splitOnNl rest with
      | [] => [[c]]
      | l :: ls => (c :: l) :: ls

def linesOf (s : String) : List String :=
  if s.data = [] then [] else (splitOnNl s.data).map String.mk

theorem splitOnNl_eq_single (cs : List Char) (h : '\n' ∉ cs) : splitOnNl cs = [cs] := by
  induction cs with
  | nil => rfl
  | cons c rest ih =>
    have hc : c ≠ '\n' := fun he => h (he ▸ List.mem_cons_self c rest)
    have hrest : '\n' ∉ rest := fun hm => h (List.mem_cons_of_mem c hm)
    simp [splitOnNl, hc, ih hrest]

theorem splitOnNl_append (cs rest : List Char) (h : '\n' ∉ cs) :
    splitOnNl (cs ++ '\n' :: rest) = cs :: splitOnNl rest := by
  induction cs with
  | nil => simp [splitOnNl]
  | cons c cs2 ih =>
    have hc : c ≠ '\n' := fun he => h (he ▸ List.mem_cons_self c cs2)
    have h2 : '\n' ∉ cs2 := fun hm => h (List.mem_cons_of_mem c hm)
    simp [splitOnNl, hc, ih h2]

theorem splitOnNl_joinNl (ss : List String) (hss : ss ≠ [])
    (h : ∀ s ∈ ss, '\n' ∉ s.data) :
    splitOnNl (joinNl ss).data = ss.map String.data := by
  induction ss with
  | nil => cases hss rfl
  | cons s rest ih =>
    cases rest with
    | nil =>
      show splitOnNl s.data = [s.data]
      exact splitOnNl_eq_single s.data (h s (by simp))
    | cons t rest2 =>
      have hd : (joinNl (s :: t :: rest2)).data =
          s.data ++ '\n' :: (joinNl (t :: rest2)).data := by
        show (s ++ "\n" ++ joinNl (t :: rest2)).data = _
        simp [String.data_append]
      rw [hd, splitOnNl_append _ _ (h s (by simp)),
        ih (by simp) (fun x hx => h x (List.mem_cons_of_mem s hx))]
      simp

theorem linesOf_joinNl (ss : List String) (h : ∀ s ∈ ss, '\n' ∉ s.data)
    (hne : ∀ s ∈ ss, s.data ≠ []) :
    linesOf (joinNl ss) = ss := by
  cases ss with
  | nil => rfl
  | cons s rest =>
    have hd0 : (joinNl (s :: rest)).data ≠ [] := by
      cases rest with
      | nil => exact hne s (by simp)
      | cons t rest2 =>
        show (s ++ "\n" ++ joinNl (t :: rest2)).data ≠ []
        simp [String.data_append]
    unfold linesOf
    rw [if_neg hd0, splitOnNl_joinNl _ (by simp) h, List.map_map]
    have hid : String.mk ∘ String.data = id := funext fun s => rfl
    rw [hid, List.map_id]

/-! ## The encoder emits no newline characters

`json.dumps` output never contains a literal `'\n'` (the newline inside
a string value is escaped to `\n`), which is exactly what makes the
line-delimited format splittable. -/

theorem char_ne_nl_of_ge (x : Char) (h : 32 ≤ x.toNat) : x ≠ '\n' :=
  fun he => absurd h (by rw [he]; decide)

theorem hexDigitChar_bounds (d : Nat) (h : d < 16) :
    48 ≤ (hexDigitChar d).toNat ∧ (hexDigitChar d).toNat ≤ 102 := by
  interval_cases d <;> decide

theorem hex4_ne_nl (n : Nat) : ∀ x ∈ hex4 n, x ≠ '\n' := by
  have hb : ∀ d : Nat, d < 16 → hexDigitChar d ≠ '\n' := fun d hd =>
    char_ne_nl_of_ge _ (by have := hexDigitChar_bounds d hd; omega)
  intro x hx
  simp [hex4] at hx
  rcases hx with rfl | rfl | rfl | rfl <;> exact hb _ (Nat.mod_lt _ (by omega))

theorem uEscape_ne_nl (n : Nat) : ∀ x ∈ uEscape n, x ≠ '\n' := by
  have hb : ∀ m : Nat, ∀ x ∈ '\\' :: 'u' :: hex4 m, x ≠ '\n' := by
    intro m x hx
    rcases List.mem_cons.mp hx with rfl | hx2
    · decide
    rcases List.mem_cons.mp hx2 with rfl | hx3
    · decide
    · exact hex4_ne_nl m x hx3
  intro x hx
  unfold uEscape at hx
  split at hx
  · exact hb _ x hx
  · rcases List.mem_append.mp hx with hx2 | hx2
    · exact hb _ x hx2
    · exact hb _ x hx2

theorem escChar_ne_nl (c : Char) : ∀ x ∈ escChar c, x ≠ '\n' := by
  intro x hx
  unfold escChar at hx
  split_ifs at hx with h1 h2 h3 h4 h5 h6 h7 h8
  · simp at hx; subst hx; decide
  · simp at hx; rcases hx with rfl | rfl <;> decide
  · simp at hx; rcases hx with rfl | rfl <;> decide
  · simp at hx; rcases hx with rfl | rfl <;> decide
  · simp at hx; rcases hx with rfl | rfl <;> decide
  · simp at hx; rcases hx with rfl | rfl <;> decide
  · simp at hx; rcases hx with rfl | rfl <;> decide
  · exact uEscape_ne_nl _ x hx
  · simp at hx; subst hx
    push_neg at h8
    exact char_ne_nl_of_ge _ (by omega)

theorem encodeStr_ne_nl (s : String) : ∀ x ∈ encodeStr s, x ≠ '\n' := by
  intro x hx
  unfold encodeStr at hx
  rcases List.mem_cons.mp hx with rfl | hx2
  · decide
  rcases List.mem_append.mp hx2 with hx3 | hx3
  · obtain ⟨l, hl, hxl⟩ := List.mem_flatten.mp hx3
    obtain ⟨c, hc, rfl⟩ := List.mem_map.mp hl
    exact escChar_ne_nl c x hxl
  · have := List.mem_singleton.mp hx3
    subst this
    decide

theorem digitChar_bounds (d : Nat) (h : d < 10) :
    48 ≤ (digitChar d).toNat ∧ (digitChar d).toNat ≤ 57 := by
  interval_cases d <;> decide

theorem natDigits_digits (fuel : Nat) :
    ∀ n, ∀ x ∈ natDigits fuel n, 48 ≤ x.toNat ∧ x.toNat ≤ 57 := by
  induction fuel with
  | zero => intro n x hx; cases hx
  | succ f ih =>
    intro n x hx
    unfold natDigits at hx
    split at hx
    · simp at hx; subst hx
      exact digitChar_bounds n (by omega)
    · simp at hx
      rcases hx with hx | rfl
      · exact ih _ x hx
      · exact digitChar_bounds _ (Nat.mod_lt _ (by omega))

theorem natChars_digits (n : Nat) :
    ∀ x ∈ natChars n, 48 ≤ x.toNat ∧ x.toNat ≤ 57 :=
  natDigits_digits (n + 1) n

theorem natDigits_ne_nil (fuel n : Nat) (h : 0 < fuel) : natDigits fuel n ≠ [] := by
  cases fuel with
  | zero => omega
  | succ f =>
    unfold natDigits
    split
    · simp
    · simp

theorem intChars_ne_nl (i : Int) : ∀ x ∈ intChars i, x ≠ '\n' := by
  intro x hx
  unfold intChars at hx
  split at hx
  · simp at hx
    rcases hx with rfl | hx
    · decide
    · exact char_ne_nl_of_ge x (by have := natChars_digits _ x hx; omega)
  · exact char_ne_nl_of_ge x (by have := natChars_digits _ x hx; omega)

theorem encodeScalar_ne_nl (s : Scalar) : ∀ x ∈ encodeScalar s, x ≠ '\n' := by
  intro x hx
  cases s with
  | null => simp [encodeScalar] at hx; rcases hx with rfl | rfl | rfl | rfl <;> decide
  | bool b =>
    cases b <;> simp [encodeScalar] at hx
    · rcases hx with rfl | rfl | rfl | rfl | rfl <;> decide
    · rcases hx with rfl | rfl | rfl | rfl <;> decide
  | int i => exact intChars_ne_nl i x hx
  | str t => exact encodeStr_ne_nl t x hx

theorem encodePair_ne_nl (kv : String × PyVal) (cs : List Char)
    (h : encodePair kv = .ok cs) : ∀ x ∈ cs, x ≠ '\n' := by
  intro x hx
  cases hv : kv.2 with
  | unserializable m => rw [encodePair, hv] at h; cases h
  | scalar sv =>
    rw [encodePair, hv] at h
    simp [encodePyVal, Except.map] at h
    subst h
    simp at hx
    rcases hx with hx | rfl | rfl | hx
    · exact encodeStr_ne_nl _ x hx
    · decide
    · decide
    · exact encodeScalar_ne_nl sv x hx

theorem joinSep_ne_nl (sep : List Char) (hsep : ∀ x ∈ sep, x ≠ '\n')
    (css : List (List Char)) (h : ∀ cs ∈ css, ∀ x ∈ cs, x ≠ '\n') :
    ∀ x ∈ joinSep sep css, x ≠ '\n' := by
  induction css with
  | nil => intro x hx; cases hx
  | cons cs rest ih =>
    intro x hx
    cases rest with
    | nil =>
      rw [joinSep] at hx
      exact h cs (by simp) x hx
    | cons cs2 rest2 =>
      rw [joinSep] at hx
      rcases List.mem_append.mp hx with hx2 | hx2
      · rcases List.mem_append.mp hx2 with hx3 | hx3
        · exact h cs (by simp) x hx3
        · exact hsep x hx3
      · exact ih (fun l hl => h l (List.mem_cons_of_mem cs hl)) x hx2

theorem encode_pairs_ne_nl (l : List (String × PyVal)) (css : List (List Char))
    (h : encode_pairs l = .ok css) : ∀ cs ∈ css, ∀ x ∈ cs, x ≠ '\n' := by
  induction l generalizing css with
  | nil =>
    cases h
    intro cs hcs; cases hcs
  | cons kv rest ih =>
    rw [encode_pairs] at h
    cases hkv : encodePair kv with
    | error e => rw [hkv] at h; cases h
    | ok cs0 =>
      rw [hkv] at h
      cases hrest : encode_pairs rest with
      | error e => rw [hrest] at h; cases h
      | ok css0 =>
        rw [hrest] at h
        cases h
        intro cs hcs
        rcases List.mem_cons.mp hcs with rfl | hcs2
        · exact encodePair_ne_nl kv cs hkv
        · exact ih css0 hrest cs hcs2

theorem json_dumps_ne_nl (r : Record) (s : String) (h : json_dumps r = .ok s) :
    ∀ x ∈ s.data, x ≠ '\n' := by
  intro x hx
  rw [json_dumps] at h
  cases henc : encode_pairs r with
  | error e => rw [henc] at h; cases h
  | ok ps =>
    rw [henc] at h
    cases h
    simp at hx
    rcases hx with rfl | hx | rfl
    · decide
    · exact joinSep_ne_nl [',', ' '] (by decide) ps (encode_pairs_ne_nl r ps henc) x hx
    · decide

theorem json_dumps_data_ne_nil (r : Record) (s : String) (h : json_dumps r = .ok s) :
    s.data ≠ [] := by
  rw [json_dumps] at h
  cases henc : encode_pairs r with
  | error e => rw [henc] at h; cases h
  | ok ps => rw [henc] at h; cases h; simp

/-! ## A verified reader for the emitted line format

To state "each line parses back to the original record" we give an
executable reader for the object grammar `json_dumps` emits (flat JSON
objects with the encoder's `", "`/`": "` separators and `ensure_ascii`
escapes) and prove it is a left inverse of the encoder. -/

def hexDigitVal (c : Char) : Option Nat :=
  if 48 ≤ c.toNat ∧ c.toNat ≤ 57 then some (c.toNat - 48)
  else if 97 ≤ c.toNat ∧ c.toNat ≤ 102 then some (c.toNat - 87)
  else none

def hex4Val (a b c d : Char) : Option Nat :=
  match hexDigitVal a, hexDigitVal b, hexDigitVal c, hexDigitVal d with
  | some x, some y, some z, some w => some (((x * 16 + y) * 16 + z) * 16 + w)
  | _, _, _, _ => none

/-- Read a low-surrogate escape `\uXXXX`, for the second half of a
surrogate pair. -/
def readLowSurrogate : List Char → Option (Nat × List Char)
  | b3 :: u2 :: a4 :: b4 :: c4 :: d4 :: rest =>
    if b3 = '\\' ∧ u2 = 'u' then
      match hex4Val a4 b4 c4 d4 with
      | none => none
      | some m => if 56320 ≤ m ∧ m ≤ 57343 then some (m, rest) else none
    else none
  | _ => none

/-- Read the four hex digits after `\u`, combining a surrogate pair
into one code point. -/
def readUEscape : List Char → Option (Char × List Char)
  | a :: b :: c :: d :: rest =>
    match hex4Val a b c d with
    | none => none
    | some n =>
      if 55296 ≤ n ∧ n ≤ 56319 then
        match readLowSurrogate rest with
        | none => none
        | some (m, rest2) =>
          some (Char.ofNat (65536 + (n - 55296) * 1024 + (m - 56320)), rest2)
      else if n < 55296 ∨ 57343 < n then some (Char.ofNat n, rest)
      else none
  | _ => none

/-- Read one escape sequence, after the backslash. -/
def readEscape : List Char → Option (Char × List Char)
  | [] => none
  | e :: rest =>
    if e = '"' then some ('"', rest)
    else if e = '\\' then some ('\\', rest)
    else if e = 'n' then some ('\n', rest)
    else if e = 't' then some ('\t', rest)
    else if e = 'r' then some ('\r', rest)
    else if e = 'b' then some (Char.ofNat 8, rest)
    else if e = 'f' then some (Char.ofNat 12, rest)
    else if e = 'u' then readUEscape rest
    else none

/-- Read the body of a string literal (after the opening quote), undoing
the encoder's escapes; returns the decoded content and the rest after
the closing quote.  `fuel` bounds the number of decoded characters. -/
def readStringBodyF : Nat → List Char → Option (List Char × List Char)
  | 0, _ => none
  | _ + 1, [] => none
  | fuel + 1, c :: rest =>
    if c = '"' then some ([], rest)
    else if c = '\\' then
      match readEscape rest with
      | none => none
      | some (ch, rest2) => (readStringBodyF fuel rest2).map (fun p => (ch :: p.1, p.2))
    else (readStringBodyF fuel rest).map (fun p => (c :: p.1, p.2))

/-- Read a string-literal body, with enough fuel for its own length. -/
def readString (cs : List Char) : Option (List Char × List Char) :=
  readStringBodyF (cs.length + 1) cs

/-- Read a run of decimal digits, accumulating their value. -/
def readDigits : List Char → Nat → Nat × List Char
  | [], acc => (acc, [])
  | c :: rest, acc =>
    if 48 ≤ c.toNat ∧ c.toNat ≤ 57 then readDigits rest (acc * 10 + (c.toNat - 48))
    else (acc, c :: rest)

/-- Read a non-empty run of digits as a natural number. -/
def readNat : List Char → Option (Nat × List Char)
  | [] => none
  | c :: rest =>
    if 48 ≤ c.toNat ∧ c.toNat ≤ 57 then some (readDigits (c :: rest) 0)
    else none

def readInt : List Char → Option (Int × List Char)
  | [] => none
  | c :: rest =>
    if c = '-' then
      match readNat rest with
      | none => none
      | some (n, rest2) => some (-(n : Int), rest2)
    else
      (readNat (c :: rest)).map (fun p => ((p.1 : Int), p.2))

def readNull : List Char → Option (Scalar × List Char)
  | 'u' :: 'l' :: 'l' :: rest2 => some (.null, rest2)
  | _ => none

def readTrue : List Char → Option (Scalar × List Char)
  | 'r' :: 'u' :: 'e' :: rest2 => some (.bool true, rest2)
  | _ => none

def readFalse : List Char → Option (Scalar × List Char)
  | 'a' :: 'l' :: 's' :: 'e' :: rest2 => some (.bool false, rest2)
  | _ => none

def readScalar : List Char → Option (Scalar × List Char)
  | [] => none
  | c :: rest =>
    if c = 'n' then readNull rest
    else if c = 't' then readTrue rest
    else if c = 'f' then readFalse rest
    else if c = '"' then
      (readString rest).map (fun p => (.str (String.mk p.1), p.2))
    else
      (readInt (c :: rest)).map (fun p => (.int p.1, p.2))

/-- Read one `"key": value` member. -/
def readMember : List Char → Option ((String × PyVal) × List Char)
  | [] => none
  | c :: rest =>
    if c = '"' then
      match readString rest with
      | none => none
      | some (key, rest2) =>
        match rest2 with
        | c2 :: c3 :: rest3 =>
          if c2 = ':' ∧ c3 = ' ' then
            (readScalar rest3).map (fun p => ((String.mk key, PyVal.scalar p.1), p.2))
          else none
        | _ => none
    else none

/-- Read the members of a non-empty object, after its opening brace;
`fuel` bounds the number of members. -/
def readMembers : Nat → List Char → Option (Record × List Char)
  | 0, _ => none
  | fuel + 1, cs =>
    match readMember cs with
    | none => none
    | some (kv, rest) =>
      match rest with
      | [] => none
      | c4 :: rest5 =>
        if c4 = '\x7d' then some ([kv], rest5)
        else if c4 = ',' then
          match rest5 with
          | [] => none
          | c5 :: rest6 =>
            if c5 = ' ' then
              (readMembers fuel rest6).map (fun p => (kv :: p.1, p.2))
            else none
        else none

/-- After the opening brace: an immediately closing brace is the empty
object, anything else must be a member list. -/
def readRecordBody (fuel : Nat) : List Char → Option (Record × List Char)
  | [] => none
  | d :: rest2 =>
    if d = '\x7d' then some ([], rest2)
    else readMembers fuel (d :: rest2)

def readRecord : Nat → List Char → Option (Record × List Char)
  | _, [] => none
  | fuel, c :: rest =>
    if c = '\x7b' then readRecordBody fuel rest else none

/-- Parse one line back into a record, requiring the whole line to be
consumed (like `json.loads`). -/
def readRecordLine (s : String) : Option Record :=
  match readRecord (s.data.length + 1) s.data with
  | some (r, []) => some r
  | _ => none

/-! ## The reader inverts the encoder: strings -/

theorem hexDigitVal_hexDigitChar (d : Nat) (h : d < 16) :
    hexDigitVal (hexDigitChar d) = some d := by
  interval_cases d <;> decide

theorem hex4_readback (n : Nat) (h : n < 65536) :
    ∃ a b c d, hex4 n = [a, b, c, d] ∧ hex4Val a b c d = some n := by
  refine ⟨_, _, _, _, rfl, ?_⟩
  unfold hex4Val
  rw [hexDigitVal_hexDigitChar _ (Nat.mod_lt _ (by omega)),
      hexDigitVal_hexDigitChar _ (Nat.mod_lt _ (by omega)),
      hexDigitVal_hexDigitChar _ (Nat.mod_lt _ (by omega)),
      hexDigitVal_hexDigitChar _ (Nat.mod_lt _ (by omega))]
  exact congrArg some (by omega)

theorem char_toNat_valid (c : Char) :
    c.toNat < 55296 ∨ (57343 < c.toNat ∧ c.toNat < 1114112) := c.valid

theorem readUEscape_bmp (a b c2 d2 : Char) (n : Nat) (hv : hex4Val a b c2 d2 = some n)
    (hn1 : ¬(55296 ≤ n ∧ n ≤ 56319)) (hn2 : n < 55296 ∨ 57343 < n) (X : List Char) :
    readUEscape (a :: b :: c2 :: d2 :: X) = some (Char.ofNat n, X) := by
  simp only [readUEscape, hv]
  rw [if_neg hn1, if_pos hn2]

theorem readUEscape_pair (a b c2 d2 a4 b4 c4 d4 : Char) (n m : Nat)
    (hv1 : hex4Val a b c2 d2 = some n) (hv2 : hex4Val a4 b4 c4 d4 = some m)
    (hn : 55296 ≤ n ∧ n ≤ 56319) (hm : 56320 ≤ m ∧ m ≤ 57343) (X : List Char) :
    readUEscape (a :: b :: c2 :: d2 :: '\\' :: 'u' :: a4 :: b4 :: c4 :: d4 :: X) =
      some (Char.ofNat (65536 + (n - 55296) * 1024 + (m - 56320)), X) := by
  simp only [readUEscape, hv1]
  rw [if_pos hn]
  simp only [readLowSurrogate]
  rw [if_pos ⟨trivial, trivial⟩]
  simp only [hv2]
  rw [if_pos hm]

/-- Every character prints as either itself (no escape needed) or as a
backslash escape the escape-reader decodes back to it. -/
theorem escChar_cases (c : Char) :
    (escChar c = [c] ∧ c ≠ '"' ∧ c ≠ '\\') ∨
    (∃ E, escChar c = '\\' :: E ∧ ∀ X, readEscape (E ++ X) = some (c, X)) := by
  unfold escChar
  split_ifs with h1 h2 h3 h4 h5 h6 h7 h8
  · subst h1; exact Or.inr ⟨['\\'], rfl, fun X => rfl⟩
  · subst h2; exact Or.inr ⟨['"'], rfl, fun X => rfl⟩
  · subst h3; exact Or.inr ⟨['n'], rfl, fun X => rfl⟩
  · subst h4; exact Or.inr ⟨['t'], rfl, fun X => rfl⟩
  · subst h5; exact Or.inr ⟨['r'], rfl, fun X => rfl⟩
  · have hc : Char.ofNat 8 = c := by rw [← h6, Char.ofNat_toNat]
    exact Or.inr ⟨['b'], rfl, fun X => by rw [← hc]; rfl⟩
  · have hc : Char.ofNat 12 = c := by rw [← h7, Char.ofNat_toNat]
    exact Or.inr ⟨['f'], rfl, fun X => by rw [← hc]; rfl⟩
  · -- the \uXXXX escapes
    refine Or.inr ?_
    have hval := char_toNat_valid c
    unfold uEscape
    split_ifs with hbmp
    · -- one \uXXXX escape, c.toNat < 0x10000
      obtain ⟨a, b, c2, d2, hhex, hv⟩ := hex4_readback c.toNat hbmp
      refine ⟨'u' :: hex4 c.toNat, rfl, fun X => ?_⟩
      show readEscape ('u' :: (hex4 c.toNat ++ X)) = some (c, X)
      rw [hhex]
      show readUEscape (a :: b :: c2 :: d2 :: X) = some (c, X)
      rw [readUEscape_bmp a b c2 d2 c.toNat hv (by omega) (by omega) X,
        Char.ofNat_toNat]
    · -- a surrogate pair, c.toNat ≥ 0x10000
      have hq : (c.toNat - 65536) / 1024 < 1024 := by omega
      have hr : (c.toNat - 65536) % 1024 < 1024 := Nat.mod_lt _ (by omega)
      obtain ⟨a, b, c2, d2, hhex1, hv1⟩ :=
        hex4_readback (55296 + (c.toNat - 65536) / 1024) (by omega)
      obtain ⟨a4, b4, c4, d4, hhex2, hv2⟩ :=
        hex4_readback (56320 + (c.toNat - 65536) % 1024) (by omega)
      refine ⟨'u' :: hex4 (55296 + (c.toNat - 65536) / 1024) ++
        '\\' :: 'u' :: hex4 (56320 + (c.toNat - 65536) % 1024), by simp, fun X => ?_⟩
      show readEscape ('u' :: (hex4 (55296 + (c.toNat - 65536) / 1024) ++
        ('\\' :: 'u' :: hex4 (56320 + (c.toNat - 65536) % 1024) ++ X))) = some (c, X)
      rw [hhex1, hhex2]
      show readUEscape (a :: b :: c2 :: d2 ::
        '\\' :: 'u' :: a4 :: b4 :: c4 :: d4 :: X) = some (c, X)
      rw [readUEscape_pair a b c2 d2 a4 b4 c4 d4 _ _ hv1 hv2
        (by omega) (by omega) X]
      have harith : 65536 + (55296 + (c.toNat - 65536) / 1024 - 55296) * 1024 +
          (56320 + (c.toNat - 65536) % 1024 - 56320) = c.toNat := by
        have hdm := Nat.div_add_mod (c.toNat - 65536) 1024
        omega
      rw [harith, Char.ofNat_toNat]
  · -- a printable ASCII character is emitted as itself
    exact Or.inl ⟨rfl, h2, h1⟩

theorem escChar_ne_nil (c : Char) : escChar c ≠ [] := by
  rcases escChar_cases c with ⟨h, _, _⟩ | ⟨E, h, _⟩ <;> simp [h]

theorem flatten_escChar_length (cs : List Char) :
    cs.length ≤ ((cs.map escChar).flatten).length := by
  induction cs with
  | nil => simp
  | cons c rest ih =>
    have h1 : 0 < (escChar c).length := List.length_pos.mpr (escChar_ne_nil c)
    simp only [List.map_cons, List.flatten_cons, List.length_append, List.length_cons]
    omega

theorem readStringBodyF_escList (cs : List Char) :
    ∀ fuel, cs.length < fuel → ∀ tail,
      readStringBodyF fuel ((cs.map escChar).flatten ++ '"' :: tail) =
        some (cs, tail) := by
  induction cs with
  | nil =>
    intro fuel hf tail
    cases fuel with
    | zero => omega
    | succ f => rfl
  | cons c cs2 ih =>
    intro fuel hf tail
    cases fuel with
    | zero => simp at hf
    | succ f =>
      simp only [List.map_cons, List.flatten_cons, List.append_assoc]
      rcases escChar_cases c with ⟨h1, h2, h3⟩ | ⟨E, h1, hRead⟩
      · rw [h1]
        show readStringBodyF (f + 1)
          (c :: ((cs2.map escChar).flatten ++ '"' :: tail)) = _
        rw [readStringBodyF, if_neg h2, if_neg h3,
          ih f (by simp at hf; omega) tail]
        rfl
      · rw [h1]
        show readStringBodyF (f + 1)
          ('\\' :: (E ++ ((cs2.map escChar).flatten ++ '"' :: tail))) = _
        rw [readStringBodyF, if_neg (by decide : ¬('\\' : Char) = '"'),
          if_pos (rfl : ('\\' : Char) = '\\'), hRead]
        show Option.map (fun p => (c :: p.1, p.2))
          (readStringBodyF f ((cs2.map escChar).flatten ++ '"' :: tail)) = _
        rw [ih f (by simp at hf; omega) tail]
        rfl

theorem readString_escList (s : List Char) (tail : List Char) :
    readString ((s.map escChar).flatten ++ '"' :: tail) = some (s, tail) := by
  unfold readString
  apply readStringBodyF_escList
  have := flatten_escChar_length s
  simp only [List.length_append, List.length_cons]
  omega

/-! ## The reader inverts the encoder: numbers and scalars -/

theorem digitChar_toNat (d : Nat) (h : d < 10) : (digitChar d).toNat = 48 + d := by
  interval_cases d <;> decide

theorem readDigits_digits_append (ds : List Char)
    (hds : ∀ c ∈ ds, 48 ≤ c.toNat ∧ c.toNat ≤ 57) (rest : List Char)
    (hrest : ∀ c, rest.head? = some c → ¬(48 ≤ c.toNat ∧ c.toNat ≤ 57)) :
    ∀ acc, readDigits (ds ++ rest) acc =
      (ds.foldl (fun a c => a * 10 + (c.toNat - 48)) acc, rest) := by
  induction ds with
  | nil =>
    intro acc
    cases rest with
    | nil => rfl
    | cons c rest2 =>
      show readDigits (c :: rest2) acc = _
      rw [readDigits, if_neg (hrest c rfl)]
      rfl
  | cons d ds2 ih =>
    intro acc
    have hd := hds d (by simp)
    show readDigits (d :: (ds2 ++ rest)) acc = _
    rw [readDigits, if_pos hd,
      ih (fun c hc => hds c (List.mem_cons_of_mem d hc)) _]
    rfl

theorem natDigits_foldl (fuel : Nat) : ∀ n acc, n ≤ fuel →
    (natDigits fuel n).foldl (fun a c => a * 10 + (c.toNat - 48)) acc =
      acc * 10 ^ (natDigits fuel n).length + n := by
  induction fuel with
  | zero =>
    intro n acc h
    interval_cases n
    simp [natDigits]
  | succ f ih =>
    intro n acc h
    rw [natDigits]
    split_ifs with h10
    · simp only [List.foldl_cons, List.foldl_nil, List.length_singleton, pow_one]
      rw [digitChar_toNat n h10]
      omega
    · rw [List.foldl_append, ih (n / 10) acc (by omega)]
      simp only [List.foldl_cons, List.foldl_nil, List.length_append,
        List.length_singleton, pow_succ]
      rw [digitChar_toNat _ (Nat.mod_lt _ (by omega))]
      have hdm := Nat.div_add_mod n 10
      rw [Nat.add_mul, ← Nat.mul_assoc]
      generalize acc * 10 ^ (natDigits f (n / 10)).length * 10 = Q
      omega

theorem natChars_cons (n : Nat) :
    ∃ d ds, natChars n = d :: ds := by
  cases h : natChars n with
  | nil => exact absurd h (natDigits_ne_nil (n + 1) n (by omega))
  | cons d ds => exact ⟨d, ds, rfl⟩

theorem readNat_natChars (n : Nat) (rest : List Char)
    (hrest : ∀ c, rest.head? = some c → ¬(48 ≤ c.toNat ∧ c.toNat ≤ 57)) :
    readNat (natChars n ++ rest) = some (n, rest) := by
  obtain ⟨d, ds, hds⟩ := natChars_cons n
  have hdig : 48 ≤ d.toNat ∧ d.toNat ≤ 57 := natChars_digits n d (by rw [hds]; simp)
  rw [hds, List.cons_append, readNat, if_pos hdig, ← List.cons_append, ← hds,
    readDigits_digits_append _ (natChars_digits n) rest hrest 0]
  have := natDigits_foldl (n + 1) n 0 (by omega)
  rw [show natChars n = natDigits (n + 1) n from rfl, this]
  simp

theorem readInt_intChars (i : Int) (rest : List Char)
    (hrest : ∀ c, rest.head? = some c → ¬(48 ≤ c.toNat ∧ c.toNat ≤ 57)) :
    readInt (intChars i ++ rest) = some (i, rest) := by
  unfold intChars
  split_ifs with hneg
  · rw [List.cons_append, readInt, if_pos rfl,
      readNat_natChars (-i).toNat rest hrest]
    simp [Int.toNat_of_nonneg (by omega : (0 : Int) ≤ -i)]
  · obtain ⟨d, ds, hds⟩ := natChars_cons i.toNat
    have hdig : 48 ≤ d.toNat ∧ d.toNat ≤ 57 :=
      natChars_digits i.toNat d (by rw [hds]; simp)
    have hdm : d ≠ '-' := by
      intro he
      rw [he] at hdig
      revert hdig
      decide
    rw [hds, List.cons_append, readInt, if_neg hdm, ← List.cons_append, ← hds,
      readNat_natChars i.toNat rest hrest]
    simp [Int.toNat_of_nonneg (by omega : (0 : Int) ≤ i)]

theorem intChars_head (i : Int) :
    ∃ c tail, intChars i = c :: tail ∧
      (c = '-' ∨ (48 ≤ c.toNat ∧ c.toNat ≤ 57)) := by
  unfold intChars
  split_ifs with hneg
  · exact ⟨'-', natChars (-i).toNat, rfl, Or.inl rfl⟩
  · obtain ⟨d, ds, hds⟩ := natChars_cons i.toNat
    exact ⟨d, ds, hds, Or.inr (natChars_digits i.toNat d (by rw [hds]; simp))⟩

theorem readScalar_encodeScalar (v : Scalar) (rest : List Char)
    (hrest : ∀ c, rest.head? = some c → ¬(48 ≤ c.toNat ∧ c.toNat ≤ 57)) :
    readScalar (encodeScalar v ++ rest) = some (v, rest) := by
  cases v with
  | null => rfl
  | bool b => cases b <;> rfl
  | int i =>
    show readScalar (intChars i ++ rest) = _
    obtain ⟨c, tail, hct, hc⟩ := intChars_head i
    have hcn : c ≠ 'n' := by
      rcases hc with rfl | hd
      · decide
      · intro he; rw [he] at hd; revert hd; decide
    have hct2 : c ≠ 't' := by
      rcases hc with rfl | hd
      · decide
      · intro he; rw [he] at hd; revert hd; decide
    have hcf : c ≠ 'f' := by
      rcases hc with rfl | hd
      · decide
      · intro he; rw [he] at hd; revert hd; decide
    have hcq : c ≠ '"' := by
      rcases hc with rfl | hd
      · decide
      · intro he; rw [he] at hd; revert hd; decide
    rw [hct, List.cons_append, readScalar, if_neg hcn, if_neg hct2, if_neg hcf,
      if_neg hcq, ← List.cons_append, ← hct, readInt_intChars i rest hrest]
    rfl
  | str s =>
    have hshape : encodeStr s ++ rest =
        '"' :: ((s.data.map escChar).flatten ++ '"' :: rest) := by
      unfold encodeStr
      simp
    rw [show encodeScalar (Scalar.str s) = encodeStr s from rfl, hshape, readScalar]
    rw [if_neg (by decide : ¬('"' : Char) = 'n'), if_neg (by decide : ¬('"' : Char) = 't'),
      if_neg (by decide : ¬('"' : Char) = 'f'), if_pos (rfl : ('"' : Char) = '"'),
      readString_escList s.data rest]
    rfl

/-! ## The reader inverts the encoder: members and records -/

theorem encodePair_ok (kv : String × PyVal) (m : List Char) (h : encodePair kv = .ok m) :
    ∃ k sv, kv = (k, PyVal.scalar sv) ∧
      m = encodeStr k ++ ':' :: ' ' :: encodeScalar sv := by
  obtain ⟨k, v⟩ := kv
  cases v with
  | scalar sv =>
    refine ⟨k, sv, rfl, ?_⟩
    unfold encodePair encodePyVal at h
    simp [Except.map] at h
    exact h.symm
  | unserializable msg =>
    unfold encodePair encodePyVal at h
    simp [Except.map] at h

theorem encode_pairs_cons_ok (kv : String × PyVal) (rest : List (String × PyVal))
    (css : List (List Char)) (h : encode_pairs (kv :: rest) = .ok css) :
    ∃ m css2, encodePair kv = .ok m ∧ encode_pairs rest = .ok css2 ∧
      css = m :: css2 := by
  rw [encode_pairs] at h
  cases h1 : encodePair kv with
  | error e => rw [h1] at h; cases h
  | ok m =>
    rw [h1] at h
    cases h2 : encode_pairs rest with
    | error e => rw [h2] at h; cases h
    | ok css2 =>
      rw [h2] at h
      cases h
      exact ⟨m, css2, rfl, rfl, rfl⟩

theorem readMember_encodePair (kv : String × PyVal) (m : List Char)
    (h : encodePair kv = .ok m) (rest : List Char)
    (hrest : ∀ c, rest.head? = some c → ¬(48 ≤ c.toNat ∧ c.toNat ≤ 57)) :
    readMember (m ++ rest) = some (kv, rest) := by
  obtain ⟨k, sv, rfl, rfl⟩ := encodePair_ok kv m h
  have hshape : (encodeStr k ++ ':' :: ' ' :: encodeScalar sv) ++ rest =
      '"' :: ((k.data.map escChar).flatten ++
        '"' :: (':' :: ' ' :: (encodeScalar sv ++ rest))) := by
    unfold encodeStr
    simp
  rw [hshape, readMember, if_pos rfl, readString_escList k.data _]
  show (if (':' : Char) = ':' ∧ (' ' : Char) = ' ' then
      (readScalar (encodeScalar sv ++ rest)).map
        (fun p => ((String.mk k.data, PyVal.scalar p.1), p.2))
    else none) = some ((k, PyVal.scalar sv), rest)
  rw [if_pos ⟨rfl, rfl⟩, readScalar_encodeScalar sv rest hrest]
  rfl

theorem readMembers_joinSep (l : List (String × PyVal)) :
    ∀ (css : List (List Char)) (fuel : Nat), l ≠ [] →
      encode_pairs l = .ok css → l.length ≤ fuel →
      ∀ rest, readMembers fuel (joinSep [',', ' '] css ++ '\x7d' :: rest) =
        some (l, rest) := by
  induction l with
  | nil => intro css fuel hne; cases hne rfl
  | cons kv l2 ih =>
    intro css fuel _ henc hlen rest
    obtain ⟨m, css2, h1, h2, rfl⟩ := encode_pairs_cons_ok kv l2 css henc
    cases fuel with
    | zero => simp at hlen
    | succ f =>
      cases l2 with
      | nil =>
        cases h2
        show readMembers (f + 1) (joinSep [',', ' '] [m] ++ '\x7d' :: rest) = _
        rw [show joinSep [',', ' '] [m] = m from rfl, readMembers,
          readMember_encodePair kv m h1 ('\x7d' :: rest)
            (fun c hc => by simp at hc; subst hc; decide)]
        rfl
      | cons kv2 l3 =>
        obtain ⟨m2, css3, h3, h4, rfl⟩ := encode_pairs_cons_ok kv2 l3 css2 h2
        have hshape : joinSep [',', ' '] (m :: m2 :: css3) ++ '\x7d' :: rest =
            m ++ ',' :: ' ' :: (joinSep [',', ' '] (m2 :: css3) ++ '\x7d' :: rest) := by
          rw [joinSep]
          simp
        rw [hshape, readMembers,
          readMember_encodePair kv m h1
            (',' :: ' ' :: (joinSep [',', ' '] (m2 :: css3) ++ '\x7d' :: rest))
            (fun c hc => by simp at hc; subst hc; decide)]
        show (if (',' : Char) = '\x7d' then some ([kv], ' ' ::
              (joinSep [',', ' '] (m2 :: css3) ++ '\x7d' :: rest))
          else if (',' : Char) = ',' then
            (if (' ' : Char) = ' ' then
              (readMembers f (joinSep [',', ' '] (m2 :: css3) ++ '\x7d' :: rest)).map
                (fun p => (kv :: p.1, p.2))
            else none)
          else none) = some (kv :: kv2 :: l3, rest)
        rw [if_neg (by decide : ¬(',' : Char) = '\x7d'),
          if_pos (rfl : (',' : Char) = ','), if_pos (rfl : (' ' : Char) = ' '),
          ih (m2 :: css3) f (by simp) h2 (by simp at hlen ⊢; omega) rest]
        rfl

theorem encodeStr_head (k : String) :
    ∃ mt, encodeStr k = '"' :: mt := ⟨_, rfl⟩

theorem readRecord_json_dumps (r : Record) (s : String) (h : json_dumps r = .ok s)
    (fuel : Nat) (hf : r.length ≤ fuel) (rest : List Char) :
    readRecord fuel (s.data ++ rest) = some (r, rest) := by
  rw [json_dumps] at h
  cases henc : encode_pairs r with
  | error e => rw [henc] at h; cases h
  | ok css =>
    rw [henc] at h
    cases h
    show readRecord fuel
      (('\x7b' :: joinSep [',', ' '] css ++ ['\x7d']) ++ rest) = some (r, rest)
    have hshape : ('\x7b' :: joinSep [',', ' '] css ++ ['\x7d']) ++ rest =
        '\x7b' :: (joinSep [',', ' '] css ++ '\x7d' :: rest) := by simp
    rw [hshape]
    cases r with
    | nil =>
      cases henc
      rfl
    | cons kv r2 =>
      obtain ⟨m, css2, h1, h2, rfl⟩ := encode_pairs_cons_ok kv r2 css henc
      obtain ⟨k, sv, rfl, hm⟩ := encodePair_ok kv m h1
      obtain ⟨mt0, hk⟩ := encodeStr_head k
      have hmhead : ∃ t, m = '"' :: t :=
        ⟨mt0 ++ (':' :: ' ' :: encodeScalar sv), by rw [hm, hk]; rfl⟩
      obtain ⟨t, hmt0⟩ := hmhead
      have hcons : ∃ mt, joinSep [',', ' '] (m :: css2) ++ '\x7d' :: rest =
          '"' :: mt := by
        cases css2 with
        | nil =>
          refine ⟨t ++ '\x7d' :: rest, ?_⟩
          rw [show joinSep [',', ' '] [m] = m from rfl, hmt0]
          rfl
        | cons m2 css3 =>
          refine ⟨t ++ ([',', ' '] ++
            (joinSep [',', ' '] (m2 :: css3) ++ '\x7d' :: rest)), ?_⟩
          rw [joinSep, hmt0]
          simp
      obtain ⟨mt, hmt⟩ := hcons
      rw [readRecord, if_pos rfl, hmt, readRecordBody,
        if_neg (by decide : ¬('"' : Char) = '\x7d'), ← hmt]
      exact readMembers_joinSep (_ :: r2) (m :: css2) fuel (by simp) henc hf rest

theorem joinSep_length_ge (sep : List Char) (css : List (List Char))
    (h : ∀ m ∈ css, m ≠ []) : css.length ≤ (joinSep sep css).length := by
  induction css with
  | nil => simp [joinSep]
  | cons m rest ih =>
    cases rest with
    | nil =>
      have := List.length_pos.mpr (h m (by simp))
      simp [joinSep]
      omega
    | cons m2 rest2 =>
      have h1 := List.length_pos.mpr (h m (by simp))
      have h2 := ih (fun x hx => h x (List.mem_cons_of_mem m hx))
      rw [joinSep]
      simp at h2 ⊢
      omega

theorem encode_pairs_length (l : List (String × PyVal)) :
    ∀ css, encode_pairs l = .ok css → css.length = l.length := by
  induction l with
  | nil => intro css h; cases h; rfl
  | cons kv rest ih =>
    intro css h
    obtain ⟨m, css2, _, h2, rfl⟩ := encode_pairs_cons_ok kv rest css h
    simp [ih css2 h2]

theorem encode_pairs_members_ne_nil (l : List (String × PyVal)) :
    ∀ css, encode_pairs l = .ok css → ∀ m ∈ css, m ≠ [] := by
  induction l with
  | nil => intro css h; cases h; intro m hm; cases hm
  | cons kv rest ih =>
    intro css h m hm
    obtain ⟨m1, css2, h1, h2, rfl⟩ := encode_pairs_cons_ok kv rest css h
    rcases List.mem_cons.mp hm with rfl | hm2
    · obtain ⟨k, sv, _, hm1⟩ := encodePair_ok kv m h1
      obtain ⟨mt0, hk⟩ := encodeStr_head k
      rw [hm1, hk]
      simp
    · exact ih css2 h2 m hm2

/-- The full inverse: a line produced by `json_dumps` parses back to the
record it came from. -/
theorem readRecordLine_json_dumps (r : Record) (s : String)
    (h : json_dumps r = .ok s) : readRecordLine s = some r := by
  have hlen : r.length ≤ s.data.length + 1 := by
    rw [json_dumps] at h
    cases henc : encode_pairs r with
    | error e => rw [henc] at h; cases h
    | ok css =>
      rw [henc] at h
      cases h
      have h1 := encode_pairs_length r css henc
      have h2 := joinSep_length_ge [',', ' '] css
        (encode_pairs_members_ne_nil r css henc)
      show r.length ≤ ('\x7b' :: joinSep [',', ' '] css ++ ['\x7d']).length + 1
      simp only [List.length_cons, List.length_append, List.length_singleton]
      omega
  have hr := readRecord_json_dumps r s h (s.data.length + 1) hlen []
  rw [List.append_nil] at hr
  unfold readRecordLine
  rw [hr]

/-! ## Claim C5: the batch format -/

theorem encode_pairs_ok_of_serializable (l : List (String × PyVal))
    (h : ∀ kv ∈ l, kv.2.isUnserializable = false) :
    ∃ css, encode_pairs l = .ok css := by
  induction l with
  | nil => exact ⟨[], rfl⟩
  | cons kv rest ih =>
    obtain ⟨css2, h2⟩ := ih (fun x hx => h x (List.mem_cons_of_mem kv hx))
    have h1 : ∃ m, encodePair kv = .ok m := by
      cases hv : kv.2 with
      | scalar sv =>
        refine ⟨encodeStr kv.1 ++ ':' :: ' ' :: encodeScalar sv, ?_⟩
        unfold encodePair encodePyVal
        rw [hv]
        rfl
      | unserializable msg =>
        have := h kv (by simp)
        rw [hv] at this
        cases this
    obtain ⟨m, h1⟩ := h1
    exact ⟨m :: css2, by rw [encode_pairs, h1, h2]⟩

theorem json_dumps_ok_of_serializable (r : Record)
    (h : ∀ kv ∈ r, kv.2.isUnserializable = false) :
    ∃ s, json_dumps r = .ok s := by
  obtain ⟨css, hcss⟩ := encode_pairs_ok_of_serializable r h
  exact ⟨_, by rw [json_dumps, hcss]⟩

theorem dumps_all_ok_of_serializable (data : List Record)
    (h : ∀ r ∈ data, ∀ kv ∈ r, kv.2.isUnserializable = false) :
    ∃ ss, dumps_all data = .ok ss := by
  induction data with
  | nil => exact ⟨[], rfl⟩
  | cons r rest ih =>
    obtain ⟨ss2, h2⟩ := ih (fun x hx => h x (List.mem_cons_of_mem r hx))
    obtain ⟨s, h1⟩ := json_dumps_ok_of_serializable r (h r (by simp))
    exact ⟨s :: ss2, by rw [dumps_all, h1, h2]⟩

theorem dumps_all_cons_ok (r : Record) (rest : List Record) (ss : List String)
    (h : dumps_all (r :: rest) = .ok ss) :
    ∃ s ss2, json_dumps r = .ok s ∧ dumps_all rest = .ok ss2 ∧ ss = s :: ss2 := by
  rw [dumps_all] at h
  cases h1 : json_dumps r with
  | error e => rw [h1] at h; cases h
  | ok s =>
    rw [h1] at h
    cases h2 : dumps_all rest with
    | error e => rw [h2] at h; cases h
    | ok ss2 =>
      rw [h2] at h
      cases h
      exact ⟨s, ss2, rfl, rfl, rfl⟩

theorem dumps_all_get (data : List Record) :
    ∀ (ss : List String), dumps_all data = .ok ss →
      ss.length = data.length ∧
      ∀ (i : Nat) (r : Record), data[i]? = some r →
        ∃ s, ss[i]? = some s ∧ json_dumps r = .ok s := by
  induction data with
  | nil =>
    intro ss h
    cases h
    exact ⟨rfl, fun i r hir => by cases i <;> cases hir⟩
  | cons r0 rest ih =>
    intro ss h
    obtain ⟨s0, ss2, h1, h2, rfl⟩ := dumps_all_cons_ok r0 rest ss h
    obtain ⟨hl, hcorr⟩ := ih ss2 h2
    refine ⟨by simp [hl], ?_⟩
    intro i r hir
    cases i with
    | zero =>
      simp at hir
      subst hir
      exact ⟨s0, by simp, h1⟩
    | succ j =>
      simp at hir
      obtain ⟨s, hs1, hs2⟩ := hcorr j r hir
      exact ⟨s, by simpa using hs1, hs2⟩

theorem dumps_all_mem (data : List Record) :
    ∀ ss, dumps_all data = .ok ss → ∀ s ∈ ss, ∃ r, json_dumps r = .ok s := by
  induction data with
  | nil =>
    intro ss h s hs
    cases h
    cases hs
  | cons r0 rest ih =>
    intro ss h s hs
    obtain ⟨s0, ss2, h1, h2, rfl⟩ := dumps_all_cons_ok r0 rest ss h
    rcases List.mem_cons.mp hs with rfl | hs2
    · exact ⟨r0, h1⟩
    · exact ih ss2 h2 s hs2

/-- C5: for every batch of serializable records, the conversion output
has exactly one line per record, in order, and the i-th line parses back
to the i-th input record. -/
theorem convert_lines_roundtrip (data : List Record)
    (h : ∀ r ∈ data, ∀ kv ∈ r, kv.2.isUnserializable = false) :
    (linesOf (convert_to_line_delimited_json data)).length = data.length ∧
    ∀ (i : Nat) (r : Record), data[i]? = some r →
      ∃ line, (linesOf (convert_to_line_delimited_json data))[i]? = some line ∧
        readRecordLine line = some r := by
  obtain ⟨ss, hss⟩ := dumps_all_ok_of_serializable data h
  obtain ⟨hlen, hcorr⟩ := dumps_all_get data ss hss
  have hconv : convert_to_line_delimited_json data = joinNl ss := by
    unfold convert_to_line_delimited_json
    rw [hss]
  have hnl : ∀ s ∈ ss, '\n' ∉ s.data := by
    intro s hs hin
    obtain ⟨r, hr⟩ := dumps_all_mem data ss hss s hs
    exact json_dumps_ne_nl r s hr '\n' hin rfl
  have hne : ∀ s ∈ ss, s.data ≠ [] := by
    intro s hs
    obtain ⟨r, hr⟩ := dumps_all_mem data ss hss s hs
    exact json_dumps_data_ne_nil r s hr
  have hlines : linesOf (convert_to_line_delimited_json data) = ss := by
    rw [hconv]
    exact linesOf_joinNl ss hnl hne
  refine ⟨by rw [hlines, hlen], ?_⟩
  intro i r hir
  obtain ⟨s, hsi, hjd⟩ := hcorr i r hir
  exact ⟨s, by rw [hlines]; exact hsi, readRecordLine_json_dumps r s hjd⟩

/-- The end-to-end two-record batch of spec section 8. -/
def sampleData : List Record :=
  [[("PlayerID", .scalar (.int 1)), ("FirstName", .scalar (.str "A")),
    ("LastName", .scalar (.str "B")), ("Team", .scalar (.str "X")),
    ("Position", .scalar (.str "G")), ("Points", .scalar (.int 10))],
   [("PlayerID", .scalar (.int 2)), ("FirstName", .scalar (.str "C")),
    ("LastName", .scalar (.str "D")), ("Team", .scalar (.str "Y")),
    ("Position", .scalar (.str "F")), ("Points", .scalar (.int 20))]]

theorem convert_lines_roundtrip_witness :
    (∀ r ∈ sampleData, ∀ kv ∈ r, kv.2.isUnserializable = false) ∧
    ((linesOf (convert_to_line_delimited_json sampleData)).length =
      sampleData.length ∧
     ∀ (i : Nat) (r : Record), sampleData[i]? = some r →
       ∃ line, (linesOf (convert_to_line_delimited_json sampleData))[i]? =
           some line ∧
         readRecordLine line = some r) :=
  ⟨by decide, convert_lines_roundtrip sampleData (by decide)⟩

end NbaDataLake
